import Mathlib

/-!
Shallow embedding of `color-thief-rs` (`src/lib.rs`), a median-cut color
quantizer, together with proofs about the claims of its specification.

Conventions of the embedding:
* Rust `u8` / `i32` / `i64` values are modelled as `Nat` / `Int`; wrap-around
  is modelled explicitly at the few places the source can hit it (`u8`
  subtraction in `widest_color_channel`, `as u8` casts in `calc_average`).
* The histogram `Vec<i32>` (length 32768) and the `partial_sum` /
  `look_ahead_sum` vectors (length 32) are modelled as total functions
  `Nat → Int`; every in-bounds access of the source becomes a plain
  application, and the one reachable out-of-bounds access (the forward
  nudge loop of `cut` walking past index 31) is modelled explicitly and
  surfaces as `none` (a Rust panic).  Results of fallible functions are
  `Option (Except Error α)`: `none` models a panic, `some (.error e)` a
  returned `Err(e)`, `some (.ok v)` a returned `Ok(v)`.
* The floating point computations of the source are exact on their actual
  ranges and are embedded by the equal integer computations:
  `hval * (i + 0.5) * 8.0` is the integer `hval * (8*i + 4)` (exact in
  `f64` for `|hval| < 2^40`); `(x - left/2.0) as i32` truncates a half
  integer toward zero, i.e. `Int.tdiv (2*x - left) 2`; and
  `(0.75 * max_colors).ceil()` for `max_colors ≤ 255` is exactly
  `(3 * max_colors + 3) / 4`.
-/

namespace ColorThief

/-- Constant `SIGNAL_BITS` of the source: use only the upper 5 of 8 bits. -/
def SIGNAL_BITS : Nat := 5

/-- Constant `RIGHT_SHIFT = 8 - SIGNAL_BITS`. -/
def RIGHT_SHIFT : Nat := 8 - SIGNAL_BITS

/-- Constant `MULTIPLIER = 1 << RIGHT_SHIFT`. -/
def MULTIPLIER : Int := 8

/-- Constant `VBOX_LENGTH = 1 << SIGNAL_BITS`, the side of the reduced cube. -/
def VBOX_LENGTH : Nat := 32

/-- Constant `MAX_ITERATIONS`, the iteration budget of `iterate`. -/
def MAX_ITERATIONS : Nat := 1000

/-- Rust enum `ColorFormat`. -/
inductive ColorFormat where
  | Rgb
  | Rgba
  | Argb
  | Bgr
  | Bgra
deriving DecidableEq, Repr

/-- Rust enum `Error`. -/
inductive Error where
  | InvalidVBox
  | VBoxCutFailed
deriving DecidableEq, Repr

/-- The output color type `rgb::RGB8` (three `u8` components). -/
structure Color where
  r : Nat
  g : Nat
  b : Nat
deriving DecidableEq, Repr

/-- Rust enum `ColorChannel`. -/
inductive ColorChannel where
  | Red
  | Green
  | Blue
deriving DecidableEq, Repr

/-- The histogram `Vec<i32>` of length 32768, as a total function. -/
abbrev Histogram := Nat → Int

/-- Rust struct `VBox` (bounds are `u8`, `volume`/`count` are `i32`). -/
structure VBox where
  r_min : Nat
  r_max : Nat
  g_min : Nat
  g_max : Nat
  b_min : Nat
  b_max : Nat
  average : Color
  volume : Int
  count : Int
deriving DecidableEq, Repr

/-- `VBox::new`: bounds as given, cached fields zeroed (recalc follows). -/
def VBox.new (r_min r_max g_min g_max b_min b_max : Nat) : VBox :=
  ⟨r_min, r_max, g_min, g_max, b_min, b_max, ⟨0, 0, 0⟩, 0, 0⟩

/-- `make_color_index_of`: pack a reduced (5-bit) color into a histogram index. -/
def make_color_index_of (red green blue : Nat) : Nat :=
  (red <<< (2 * SIGNAL_BITS)) + (green <<< SIGNAL_BITS) + blue

/-- Sum `f lo + f (lo+1) + ...`, `n` terms: the accumulation of a Rust
`for` loop, by structural recursion on the number of iterations. -/
def sumFrom : Nat → Nat → (Nat → Int) → Int
  | 0, _, _ => 0
  | n + 1, lo, f => f lo + sumFrom n (lo + 1) f

/-- Accumulation of `for i in lo..hi { acc += f i }` (empty when `hi ≤ lo`). -/
def sumOver (lo hi : Nat) (f : Nat → Int) : Int :=
  sumFrom (hi - lo) lo f

/-- `VBox::calc_volume`: product of the three inclusive extents, in `i32`. -/
def calc_volume (v : VBox) : Int :=
    ((v.r_max : Int) - (v.r_min : Int) + 1)
  * ((v.g_max : Int) - (v.g_min : Int) + 1)
  * ((v.b_max : Int) - (v.b_min : Int) + 1)

/-- `VBox::calc_count`: sum of the histogram over the box's cells. -/
def calc_count (histogram : Histogram) (v : VBox) : Int :=
  sumOver v.r_min (v.r_max + 1) fun i =>
    sumOver v.g_min (v.g_max + 1) fun j =>
      sumOver v.b_min (v.b_max + 1) fun k =>
        histogram (make_color_index_of i j k)

/-- `VBox::calc_average`.  The per-cell float term
`hval * (i as f64 + 0.5) * MULTIPLIER_64` is the exact integer
`hval * (8*i + 4)`, so the `as i32` truncations are identities; the final
`as u8` casts truncate to the low byte (`emod 256`).  In the zero-weight
fallback all quantities are nonnegative, and `cmp::min (…, 255)` precedes
the cast. -/
def calc_average (histogram : Histogram) (v : VBox) : Color :=
  let ntot := calc_count histogram v
  let r_sum := sumOver v.r_min (v.r_max + 1) fun i =>
    sumOver v.g_min (v.g_max + 1) fun j =>
      sumOver v.b_min (v.b_max + 1) fun k =>
        histogram (make_color_index_of i j k) * (8 * (i : Int) + 4)
  let g_sum := sumOver v.r_min (v.r_max + 1) fun i =>
    sumOver v.g_min (v.g_max + 1) fun j =>
      sumOver v.b_min (v.b_max + 1) fun k =>
        histogram (make_color_index_of i j k) * (8 * (j : Int) + 4)
  let b_sum := sumOver v.r_min (v.r_max + 1) fun i =>
    sumOver v.g_min (v.g_max + 1) fun j =>
      sumOver v.b_min (v.b_max + 1) fun k =>
        histogram (make_color_index_of i j k) * (8 * (k : Int) + 4)
  if 0 < ntot then
    ⟨((r_sum.tdiv ntot).emod 256).toNat,
     ((g_sum.tdiv ntot).emod 256).toNat,
     ((b_sum.tdiv ntot).emod 256).toNat⟩
  else
    let r := (MULTIPLIER * ((v.r_min : Int) + (v.r_max : Int) + 1)).tdiv 2
    let g := (MULTIPLIER * ((v.g_min : Int) + (v.g_max : Int) + 1)).tdiv 2
    let b := (MULTIPLIER * ((v.b_min : Int) + (v.b_max : Int) + 1)).tdiv 2
    ⟨(min r 255).toNat, (min g 255).toNat, (min b 255).toNat⟩

/-- `VBox::recalc`: refresh the three cached fields from the bounds. -/
def recalc (histogram : Histogram) (v : VBox) : VBox :=
  { v with
    average := calc_average histogram v
    count := calc_count histogram v
    volume := calc_volume v }

/-- Wrapping `u8` subtraction (release-mode semantics of `a - b` on `u8`;
both operands are at most 255 wherever the source performs it). -/
def u8_sub (a b : Nat) : Nat :=
  (a + 256 - b) % 256

/-- `VBox::widest_color_channel`: the axis of largest width, ties resolved
in the order Red, Green, Blue. -/
def widest_color_channel (v : VBox) : ColorChannel :=
  let r_width := u8_sub v.r_max v.r_min
  let g_width := u8_sub v.g_max v.g_min
  let b_width := u8_sub v.b_max v.b_min
  let m := max (max r_width g_width) b_width
  if m = r_width then ColorChannel.Red
  else if m = g_width then ColorChannel.Green
  else ColorChannel.Blue

/-- `color_parts`: extract `(r, g, b, a)` at byte position `pos` according
to the channel layout.  All accesses are in bounds at the call sites
(`pos + channels - 1 < pixels.len()`), so `getD _ 0` is exact there. -/
def color_parts (pixels : List Nat) (color_format : ColorFormat) (pos : Nat) :
    Nat × Nat × Nat × Nat :=
  match color_format with
  | ColorFormat.Rgb =>
    (pixels.getD (pos + 0) 0, pixels.getD (pos + 1) 0, pixels.getD (pos + 2) 0, 255)
  | ColorFormat.Rgba =>
    (pixels.getD (pos + 0) 0, pixels.getD (pos + 1) 0, pixels.getD (pos + 2) 0,
     pixels.getD (pos + 3) 0)
  | ColorFormat.Argb =>
    (pixels.getD (pos + 1) 0, pixels.getD (pos + 2) 0, pixels.getD (pos + 3) 0,
     pixels.getD (pos + 0) 0)
  | ColorFormat.Bgr =>
    (pixels.getD (pos + 2) 0, pixels.getD (pos + 1) 0, pixels.getD (pos + 0) 0, 255)
  | ColorFormat.Bgra =>
    (pixels.getD (pos + 2) 0, pixels.getD (pos + 1) 0, pixels.getD (pos + 0) 0,
     pixels.getD (pos + 3) 0)

/-- Channel count of a format (the `colors_count` match in
`make_histogram_and_vbox`). -/
def colors_count : ColorFormat → Nat
  | ColorFormat.Rgb => 3
  | ColorFormat.Rgba => 4
  | ColorFormat.Argb => 4
  | ColorFormat.Bgr => 3
  | ColorFormat.Bgra => 4

/-- The skip test of the sampling loop: near-transparent or near-white. -/
def is_skipped (pixels : List Nat) (color_format : ColorFormat) (pos : Nat) : Prop :=
  match color_parts pixels color_format pos with
  | (r, g, b, a) => a < 125 ∨ (250 < r ∧ 250 < g ∧ 250 < b)

instance (pixels : List Nat) (color_format : ColorFormat) (pos : Nat) :
    Decidable (is_skipped pixels color_format pos) := by
  unfold is_skipped
  exact inferInstance

/-- State threaded through the sampling loop of `make_histogram_and_vbox`:
the histogram under construction and the running per-channel bounds. -/
structure SamplerState where
  histogram : Histogram
  r_min : Nat
  r_max : Nat
  g_min : Nat
  g_max : Nat
  b_min : Nat
  b_max : Nat

/-- One iteration of the sampling loop at pixel index `i` (byte position
`i * cc`): skip near-transparent / near-white pixels, otherwise reduce each
channel by `RIGHT_SHIFT`, widen the bounds and bump the histogram bucket. -/
def processPixel (pixels : List Nat) (color_format : ColorFormat) (cc : Nat)
    (st : SamplerState) (i : Nat) : SamplerState :=
  let pos := i * cc
  match color_parts pixels color_format pos with
  | (r, g, b, a) =>
    if a < 125 ∨ (250 < r ∧ 250 < g ∧ 250 < b) then st
    else
      let shifted_r := r >>> RIGHT_SHIFT
      let shifted_b := b >>> RIGHT_SHIFT
      let shifted_g := g >>> RIGHT_SHIFT
      { histogram := fun idx =>
          if idx = make_color_index_of shifted_r shifted_g shifted_b then
            st.histogram idx + 1
          else st.histogram idx
        r_min := min st.r_min shifted_r
        r_max := max st.r_max shifted_r
        g_min := min st.g_min shifted_g
        g_max := max st.g_max shifted_g
        b_min := min st.b_min shifted_b
        b_max := max st.b_max shifted_b }

/-- Index sequence of the loop `while i < pixel_count { ...; i += stride }`:
`0, stride, 2*stride, …` below `pixel_count`.  Structural fuel; the callers
pass `pixel_count + 1`, which suffices whenever `1 ≤ stride`. -/
def sampleIndices : Nat → Nat → Nat → Nat → List Nat
  | 0, _, _, _ => []
  | fuel + 1, i, pixel_count, stride =>
    if i < pixel_count then i :: sampleIndices fuel (i + stride) pixel_count stride
    else []

/-- The pixel indices visited by the sampling loop of
`make_histogram_and_vbox`: starting at 0 with step `colors_count * step`
(the source adds `colors_count * step` to the pixel index `i`, whose byte
position is `i * colors_count`). -/
def sampledPixelIndices (pixels : List Nat) (color_format : ColorFormat) (step : Nat) :
    List Nat :=
  let cc := colors_count color_format
  let pixel_count := pixels.length / cc
  sampleIndices (pixel_count + 1) 0 pixel_count (cc * step)

/-- `make_histogram_and_vbox`: run the sampling loop from the sentinel
state (`min` at `u8::MAX`, `max` at `u8::MIN`, zero histogram), then build
and recalc the initial box from the observed bounds. -/
def make_histogram_and_vbox (pixels : List Nat) (color_format : ColorFormat)
    (step : Nat) : VBox × Histogram :=
  let cc := colors_count color_format
  let st0 : SamplerState := ⟨fun _ => 0, 255, 0, 255, 0, 255, 0⟩
  let st := (sampledPixelIndices pixels color_format step).foldl
    (processPixel pixels color_format cc) st0
  let vbox := recalc st.histogram
    (VBox.new st.r_min st.r_max st.g_min st.g_max st.b_min st.b_max)
  (vbox, st.histogram)

/-- Lower bound of a box along an axis. -/
def axMin : ColorChannel → VBox → Nat
  | ColorChannel.Red, v => v.r_min
  | ColorChannel.Green, v => v.g_min
  | ColorChannel.Blue, v => v.b_min

/-- Upper bound of a box along an axis. -/
def axMax : ColorChannel → VBox → Nat
  | ColorChannel.Red, v => v.r_max
  | ColorChannel.Green, v => v.g_max
  | ColorChannel.Blue, v => v.b_max

/-- Replace the upper bound along an axis (the `vbox1` field update of
`cut`). -/
def withAxMax : ColorChannel → VBox → Nat → VBox
  | ColorChannel.Red, v, d => { v with r_max := d }
  | ColorChannel.Green, v, d => { v with g_max := d }
  | ColorChannel.Blue, v, d => { v with b_max := d }

/-- Replace the lower bound along an axis (the `vbox2` field update of
`cut`). -/
def withAxMin : ColorChannel → VBox → Nat → VBox
  | ColorChannel.Red, v, d => { v with r_min := d }
  | ColorChannel.Green, v, d => { v with g_min := d }
  | ColorChannel.Blue, v, d => { v with b_min := d }

/-- Population of the slice of `v` at coordinate `i` of `axis`: the inner
double loop of the `partial_sum` pass of `apply_median_cut`. -/
def axisSliceSum (axis : ColorChannel) (v : VBox) (histogram : Histogram)
    (i : Nat) : Int :=
  match axis with
  | ColorChannel.Red =>
    sumOver v.g_min (v.g_max + 1) fun j =>
      sumOver v.b_min (v.b_max + 1) fun k =>
        histogram (make_color_index_of i j k)
  | ColorChannel.Green =>
    sumOver v.r_min (v.r_max + 1) fun j =>
      sumOver v.b_min (v.b_max + 1) fun k =>
        histogram (make_color_index_of j i k)
  | ColorChannel.Blue =>
    sumOver v.r_min (v.r_max + 1) fun j =>
      sumOver v.g_min (v.g_max + 1) fun k =>
        histogram (make_color_index_of j k i)

/-- The list `lo, lo+1, …, hi-1` of a Rust range `lo..hi`. -/
def rangeL (lo hi : Nat) : List Nat :=
  List.range' lo (hi - lo)

/-- The `partial_sum` pass: starting from the all `-1` vector, write the
running cumulative slice population at each visited coordinate, returning
the filled vector and the final `total`. -/
def psAux (slice : Nat → Int) : List Nat → (Nat → Int) → Int → ((Nat → Int) × Int)
  | [], ps, total => (ps, total)
  | i :: rest, ps, total =>
    let total' := total + slice i
    psAux slice rest (fun j => if j = i then total' else ps j) total'

/-- Build `partial_sum` and `total` for the chosen axis of `vbox`. -/
def buildPsum (axis : ColorChannel) (vbox : VBox) (histogram : Histogram) :
    ((Nat → Int) × Int) :=
  psAux (axisSliceSum axis vbox histogram)
    (rangeL (axMin axis vbox) (axMax axis vbox + 1)) (fun _ => (-1 : Int)) 0

/-- The forward nudge `while d2 < 0 || partial_sum[d2] <= 0 { d2 += 1 }`.
Indexing past 31 is out of bounds in the source (a panic), modelled as
`none`; the fuel passed by `cut` covers every index the loop can visit, so
fuel exhaustion is unreachable. -/
def nudgeForward : Nat → (Nat → Int) → Int → Option Int
  | 0, _, _ => none
  | fuel + 1, ps, d2 =>
    if d2 < 0 then nudgeForward fuel ps (d2 + 1)
    else if (VBOX_LENGTH : Int) ≤ d2 then none
    else if ps d2.toNat ≤ 0 then nudgeForward fuel ps (d2 + 1)
    else some d2

/-- The backward nudge: while `look_ahead_sum[d2] == 0 && d2 > 0 &&
partial_sum[d2-1] > 0`, decrement `d2`. -/
def nudgeBackward (ps look_ahead : Nat → Int) : Nat → Nat
  | 0 => 0
  | d2 + 1 =>
    if look_ahead (d2 + 1) = 0 ∧ 0 < ps d2 then nudgeBackward ps look_ahead d2
    else d2 + 1

/-- `cut`: scan the axis for the first coordinate whose cumulative
population exceeds `total / 2` (the body of the source's `for` loop always
returns, so only the first hit matters), refine it by the two nudges, and
split the box there.  No hit at all is `VBoxCutFailed`. -/
def cut (axis : ColorChannel) (vbox : VBox) (histogram : Histogram)
    (psum look_ahead : Nat → Int) (total : Int) :
    Option (Except Error (VBox × Option VBox)) :=
  let vbox_min := axMin axis vbox
  let vbox_max := axMax axis vbox
  match (rangeL vbox_min (vbox_max + 1)).find?
      (fun i => decide (total.tdiv 2 < psum i)) with
  | none => some (Except.error Error.VBoxCutFailed)
  | some i =>
    let left : Int := (i : Int) - (vbox_min : Int)
    let right : Int := (vbox_max : Int) - (i : Int)
    let d2_init : Int :=
      if left ≤ right then min ((vbox_max : Int) - 1) ((i : Int) + right.tdiv 2)
      else max (vbox_min : Int) (Int.tdiv (2 * ((i : Int) - 1) - left) 2)
    match nudgeForward (VBOX_LENGTH + 2) psum d2_init with
    | none => none
    | some d2f =>
      let d2 := nudgeBackward psum look_ahead d2f.toNat
      let vbox1 := recalc histogram (withAxMax axis vbox d2)
      let vbox2 := recalc histogram (withAxMin axis vbox (d2 + 1))
      some (Except.ok (vbox1, some vbox2))

/-- `apply_median_cut`: reject an empty box (`InvalidVBox`), pass a
singleton box through unchanged, otherwise build the cumulative sums along
the widest axis and `cut`. -/
def apply_median_cut (histogram : Histogram) (vbox : VBox) :
    Option (Except Error (VBox × Option VBox)) :=
  if vbox.count = 0 then some (Except.error Error.InvalidVBox)
  else if vbox.count = 1 then some (Except.ok (vbox, none))
  else
    let axis := widest_color_channel vbox
    let pt := buildPsum axis vbox histogram
    let psum := pt.1
    let total := pt.2
    let look_ahead : Nat → Int := fun i =>
      if i < VBOX_LENGTH ∧ psum i ≠ -1 then total - psum i else -1
    cut axis vbox histogram psum look_ahead total

/-- `compare_by_count`: ascending population. -/
def compare_by_count (a b : VBox) : Ordering :=
  compare a.count b.count

/-- `compare_by_product`: by volume on equal counts, else by
`count * volume` (computed in `i64`, exact here). -/
def compare_by_product (a b : VBox) : Ordering :=
  if a.count = b.count then compare a.volume b.volume
  else compare (a.count * a.volume) (b.count * b.volume)

/-- Stable insertion into a sorted list: place `x` before the first element
it does not compare `gt` against. -/
def insertSorted (cmp : VBox → VBox → Ordering) (x : VBox) : List VBox → List VBox
  | [] => [x]
  | y :: ys =>
    if cmp x y = Ordering.gt then y :: insertSorted cmp x ys
    else x :: y :: ys

/-- Stable sort by a comparator (`Vec::sort_by` is a stable ascending
sort; insertion sort realizes the same specification). -/
def sortBy (cmp : VBox → VBox → Ordering) : List VBox → List VBox
  | [] => []
  | x :: xs => insertSorted cmp x (sortBy cmp xs)

/-- `iterate`: up to `fuel` (`MAX_ITERATIONS`) rounds, inspect the last
box; skip (after a re-sort) if its count is zero, otherwise pop and
median-cut it, push the piece(s) back, re-sort, and stop once the number
of produced colors reaches `target`.  Returns the final queue and color
counter (the source keeps the queue in a `&mut Vec` and the counter
local). -/
def iterate (histogram : Histogram) (cmp : VBox → VBox → Ordering) (target : Nat) :
    Nat → List VBox → Nat → Option (Except Error (List VBox × Nat))
  | 0, queue, color => some (Except.ok (queue, color))
  | fuel + 1, queue, color =>
    match queue.getLast? with
    | none => iterate histogram cmp target fuel queue color
    | some vbox =>
      if vbox.count = 0 then
        iterate histogram cmp target fuel (sortBy cmp queue) color
      else
        match apply_median_cut histogram vbox with
        | none => none
        | some (Except.error e) => some (Except.error e)
        | some (Except.ok (v1, ov2)) =>
          let pushed := match ov2 with
            | none => [v1]
            | some v2 => [v1, v2]
          let color' := match ov2 with
            | none => color
            | some _ => color + 1
          let qs := sortBy cmp (queue.dropLast ++ pushed)
          if target ≤ color' then some (Except.ok (qs, color'))
          else iterate histogram cmp target fuel qs color'

/-- `quantize`: histogram and seed box, phase 1 by population up to
`ceil(0.75 * max_colors)` (exact as `(3*max_colors + 3) / 4`), re-sort by
product, phase 2 by product up to `max_colors - len` (a `u8` subtraction;
see the phase-1 length bound), then reverse, map to averages, and truncate
to `max_colors`. -/
def quantize (pixels : List Nat) (color_format : ColorFormat) (quality : Nat)
    (max_colors : Nat) : Option (Except Error (List Color)) :=
  let p := make_histogram_and_vbox pixels color_format quality
  let vbox := p.1
  let histogram := p.2
  let target := (3 * max_colors + 3) / 4
  match iterate histogram compare_by_count target MAX_ITERATIONS [vbox] 1 with
  | none => none
  | some (Except.error e) => some (Except.error e)
  | some (Except.ok (pq1, _)) =>
    let pq2 := sortBy compare_by_product pq1
    let len := pq2.length
    match iterate histogram compare_by_product (max_colors - len) MAX_ITERATIONS pq2 1 with
    | none => none
    | some (Except.error e) => some (Except.error e)
    | some (Except.ok (pq3, _)) =>
      let colors := (pq3.reverse.map (fun v => v.average)).take max_colors
      some (Except.ok colors)

/-- `get_palette`: assert the documented caller contract
(`0 < quality ≤ 10`, `max_colors > 1`; an `assert!` failure is a panic,
i.e. `none`), then `quantize`. -/
def get_palette (pixels : List Nat) (color_format : ColorFormat) (quality : Nat)
    (max_colors : Nat) : Option (Except Error (List Color)) :=
  if 0 < quality ∧ quality ≤ 10 ∧ 1 < max_colors then
    quantize pixels color_format quality max_colors
  else none

/-- Unpack a histogram index into its three 5-bit fields (the inverse
reading of `make_color_index_of`: bits 10.., bits 5..9, bits 0..4). -/
def unpack_color_index (idx : Nat) : Nat × Nat × Nat :=
  (idx / 1024 % 32, idx / 32 % 32, idx % 32)

/-- The spec invariant `min ≤ max` on each of the three axes of a box. -/
def minLeMax (v : VBox) : Prop :=
  v.r_min ≤ v.r_max ∧ v.g_min ≤ v.g_max ∧ v.b_min ≤ v.b_max

instance (v : VBox) : Decidable (minLeMax v) := by
  unfold minLeMax
  exact inferInstance

/-- A box as the algorithm maintains it in the queue: the cached `count`
field is the true histogram population of its bounds, and the bounds are
ordered on every axis unless the box is empty (`count = 0`). -/
def GoodBox (histogram : Histogram) (v : VBox) : Prop :=
  v.count = calc_count histogram v ∧ (minLeMax v ∨ v.count = 0)

instance (histogram : Histogram) (v : VBox) : Decidable (GoodBox histogram v) := by
  unfold GoodBox
  exact inferInstance

/-- Membership of a reduced-space cell in a box (inclusive bounds). -/
def inVBox (v : VBox) (r g b : Nat) : Prop :=
  v.r_min ≤ r ∧ r ≤ v.r_max ∧ v.g_min ≤ g ∧ g ≤ v.g_max ∧ v.b_min ≤ b ∧ b ≤ v.b_max

/-! ### Basic lemmas about the sort used for the priority queue -/

theorem length_insertSorted (cmp : VBox → VBox → Ordering) (x : VBox) (l : List VBox) :
    (insertSorted cmp x l).length = l.length + 1 := by
  induction l with
  | nil => rfl
  | cons y ys ih =>
    unfold insertSorted
    split
    · simp only [List.length_cons, ih]
    · simp only [List.length_cons]

theorem length_sortBy (cmp : VBox → VBox → Ordering) (l : List VBox) :
    (sortBy cmp l).length = l.length := by
  induction l with
  | nil => rfl
  | cons x xs ih =>
    unfold sortBy
    rw [length_insertSorted, ih, List.length_cons]

theorem mem_insertSorted (cmp : VBox → VBox → Ordering) (x v : VBox) (l : List VBox) :
    v ∈ insertSorted cmp x l ↔ v = x ∨ v ∈ l := by
  induction l with
  | nil => simp [insertSorted]
  | cons y ys ih =>
    unfold insertSorted
    split
    · simp only [List.mem_cons, ih]
      tauto
    · simp only [List.mem_cons]

theorem mem_sortBy (cmp : VBox → VBox → Ordering) (v : VBox) (l : List VBox) :
    v ∈ sortBy cmp l ↔ v ∈ l := by
  induction l with
  | nil => simp [sortBy]
  | cons x xs ih =>
    unfold sortBy
    rw [mem_insertSorted, ih, List.mem_cons]

theorem sortBy_ne_nil (cmp : VBox → VBox → Ordering) (l : List VBox) (h : l ≠ []) :
    sortBy cmp l ≠ [] := by
  intro hc
  apply h
  have := length_sortBy cmp l
  rw [hc] at this
  exact List.length_eq_zero.mp this.symm

/-! ### Lemmas about loop sums -/

theorem sumFrom_eq_zero (n lo : Nat) (f : Nat → Int) (h : ∀ i, f i = 0) :
    sumFrom n lo f = 0 := by
  induction n generalizing lo with
  | zero => rfl
  | succ m ih =>
    unfold sumFrom
    rw [h lo, ih (lo + 1)]
    rfl

theorem sumOver_of_le (lo hi : Nat) (f : Nat → Int) (h : hi ≤ lo) :
    sumOver lo hi f = 0 := by
  unfold sumOver
  rw [Nat.sub_eq_zero_of_le h]
  rfl

theorem sumOver_eq_zero (lo hi : Nat) (f : Nat → Int) (h : ∀ i, f i = 0) :
    sumOver lo hi f = 0 :=
  sumFrom_eq_zero _ _ _ h

/-- A box whose bounds are inverted on some axis spans no cell: its count
is the empty (or all-zero) triple sum. -/
theorem calc_count_eq_zero_of_not_minLeMax (histogram : Histogram) (v : VBox)
    (h : ¬(v.r_min ≤ v.r_max ∧ v.g_min ≤ v.g_max ∧ v.b_min ≤ v.b_max)) :
    calc_count histogram v = 0 := by
  unfold calc_count
  by_cases hr : v.r_min ≤ v.r_max
  · by_cases hg : v.g_min ≤ v.g_max
    · have hb : ¬ v.b_min ≤ v.b_max := by tauto
      apply sumOver_eq_zero
      intro i
      apply sumOver_eq_zero
      intro j
      exact sumOver_of_le _ _ _ (by omega)
    · apply sumOver_eq_zero
      intro i
      exact sumOver_of_le _ _ _ (by omega)
  · exact sumOver_of_le _ _ _ (by omega)

/-! ### Lemmas about the cumulative-sum vector and the nudge loops -/

theorem psAux_apply_of_not_mem (slice : Nat → Int) (l : List Nat) (ps : Nat → Int)
    (total : Int) (j : Nat) (h : j ∉ l) :
    (psAux slice l ps total).1 j = ps j := by
  induction l generalizing ps total with
  | nil => rfl
  | cons i rest ih =>
    simp only [List.mem_cons, not_or] at h
    unfold psAux
    rw [ih _ _ h.2]
    simp [h.1]

theorem buildPsum_apply_of_not_mem (axis : ColorChannel) (vbox : VBox)
    (histogram : Histogram) (j : Nat)
    (h : ¬(axMin axis vbox ≤ j ∧ j ≤ axMax axis vbox)) :
    (buildPsum axis vbox histogram).1 j = -1 := by
  unfold buildPsum
  rw [psAux_apply_of_not_mem]
  intro hc
  rw [rangeL, List.mem_range'_1] at hc
  omega

/-- If the written entry at `j` is positive, `j` lies inside the scanned
axis range (unwritten entries stay at `-1`). -/
theorem buildPsum_pos_range (axis : ColorChannel) (vbox : VBox)
    (histogram : Histogram) (j : Nat)
    (h : 0 < (buildPsum axis vbox histogram).1 j) :
    axMin axis vbox ≤ j ∧ j ≤ axMax axis vbox := by
  by_contra hc
  rw [buildPsum_apply_of_not_mem axis vbox histogram j hc] at h
  omega

theorem nudgeForward_some (fuel : Nat) (ps : Nat → Int) (d2 d : Int)
    (h : nudgeForward fuel ps d2 = some d) :
    0 ≤ d ∧ d < (VBOX_LENGTH : Int) ∧ 0 < ps d.toNat := by
  induction fuel generalizing d2 with
  | zero => simp [nudgeForward] at h
  | succ n ih =>
    unfold nudgeForward at h
    split at h
    · exact ih _ h
    · split at h
      · simp at h
      · split at h
        · exact ih _ h
        · rename_i h1 h2 h3
          cases h
          exact ⟨by omega, by omega, by omega⟩

theorem nudgeBackward_pos (ps look_ahead : Nat → Int) (d2 : Nat)
    (h : 0 < ps d2) : 0 < ps (nudgeBackward ps look_ahead d2) := by
  induction d2 with
  | zero => simpa [nudgeBackward] using h
  | succ n ih =>
    unfold nudgeBackward
    split
    · rename_i hcond
      exact ih hcond.2
    · exact h

/-! ### Projection lemmas for the axis accessors -/

theorem axMin_recalc (a : ColorChannel) (histogram : Histogram) (v : VBox) :
    axMin a (recalc histogram v) = axMin a v := by
  cases a <;> rfl

theorem axMax_recalc (a : ColorChannel) (histogram : Histogram) (v : VBox) :
    axMax a (recalc histogram v) = axMax a v := by
  cases a <;> rfl

theorem axMin_withAxMax (a : ColorChannel) (v : VBox) (d : Nat) :
    axMin a (withAxMax a v d) = axMin a v := by
  cases a <;> rfl

theorem axMax_withAxMax (a : ColorChannel) (v : VBox) (d : Nat) :
    axMax a (withAxMax a v d) = d := by
  cases a <;> rfl

theorem axMin_withAxMin (a : ColorChannel) (v : VBox) (d : Nat) :
    axMin a (withAxMin a v d) = d := by
  cases a <;> rfl

theorem axMax_withAxMin (a : ColorChannel) (v : VBox) (d : Nat) :
    axMax a (withAxMin a v d) = axMax a v := by
  cases a <;> rfl

/-! ### Destructuring a successful cut -/

theorem cut_ok_destruct (axis : ColorChannel) (vbox : VBox) (histogram : Histogram)
    (psum look_ahead : Nat → Int) (total : Int) (v1 : VBox) (ov2 : Option VBox)
    (h : cut axis vbox histogram psum look_ahead total = some (Except.ok (v1, ov2))) :
    ∃ d2 : Nat, 0 < psum d2 ∧
      v1 = recalc histogram (withAxMax axis vbox d2) ∧
      ov2 = some (recalc histogram (withAxMin axis vbox (d2 + 1))) := by
  unfold cut at h
  dsimp only at h
  split at h
  · simp at h
  · rename_i i hfind
    split at h
    · exact absurd h (by simp)
    · rename_i d2f hnf
      have hps := nudgeForward_some _ _ _ _ hnf
      refine ⟨nudgeBackward psum look_ahead d2f.toNat, ?_, ?_, ?_⟩
      · exact nudgeBackward_pos _ _ _ hps.2.2
      · simp only [Option.some.injEq, Except.ok.injEq, Prod.mk.injEq] at h
        exact h.1.symm
      · simp only [Option.some.injEq, Except.ok.injEq, Prod.mk.injEq] at h
        exact h.2.symm

theorem amc_ok_two_destruct (histogram : Histogram) (v v1 v2 : VBox)
    (h : apply_median_cut histogram v = some (Except.ok (v1, some v2))) :
    v.count ≠ 0 ∧ v.count ≠ 1 ∧
    ∃ d2 : Nat,
      axMin (widest_color_channel v) v ≤ d2 ∧ d2 ≤ axMax (widest_color_channel v) v ∧
      v1 = recalc histogram (withAxMax (widest_color_channel v) v d2) ∧
      v2 = recalc histogram (withAxMin (widest_color_channel v) v (d2 + 1)) := by
  unfold apply_median_cut at h
  split at h
  · simp at h
  · split at h
    · rename_i h0 h1
      simp only [Option.some.injEq, Except.ok.injEq, Prod.mk.injEq] at h
      exact absurd h.2 (by simp)
    · rename_i h0 h1
      dsimp only at h
      obtain ⟨d2, hpos, hv1, hov2⟩ := cut_ok_destruct _ _ _ _ _ _ _ _ h
      have hrange := buildPsum_pos_range _ _ _ _ hpos
      simp only [Option.some.injEq] at hov2
      exact ⟨h0, h1, d2, hrange.1, hrange.2, hv1, hov2⟩

/-- A successful `apply_median_cut` that returns a single box went through
the `count == 1` branch and returns the box unchanged. -/
theorem amc_ok_one_destruct (histogram : Histogram) (v v1 : VBox)
    (h : apply_median_cut histogram v = some (Except.ok (v1, none))) :
    v.count = 1 ∧ v1 = v := by
  unfold apply_median_cut at h
  split at h
  · simp at h
  · split at h
    · rename_i h0 h1
      simp only [Option.some.injEq, Except.ok.injEq, Prod.mk.injEq] at h
      exact ⟨h1, h.1.symm⟩
    · rename_i h0 h1
      dsimp only at h
      obtain ⟨d2, hpos, hv1, hov2⟩ := cut_ok_destruct _ _ _ _ _ _ _ _ h
      exact absurd hov2 (by simp)

/-! ### Preservation of `GoodBox` -/

theorem goodBox_recalc (histogram : Histogram) (w : VBox)
    (h : minLeMax w ∨ calc_count histogram w = 0) :
    GoodBox histogram (recalc histogram w) := by
  constructor
  · rfl
  · cases h with
    | inl hm => exact Or.inl hm
    | inr hz => exact Or.inr hz

theorem minLeMax_withAxMax (axis : ColorChannel) (v : VBox) (d : Nat)
    (hv : minLeMax v) (hd : axMin axis v ≤ d) :
    minLeMax (withAxMax axis v d) := by
  obtain ⟨h1, h2, h3⟩ := hv
  cases axis <;> simp [withAxMax, axMin, minLeMax] at hd ⊢ <;> omega

theorem minLeMax_withAxMin (axis : ColorChannel) (v : VBox) (d : Nat)
    (hv : minLeMax v) (hd : d ≤ axMax axis v) :
    minLeMax (withAxMin axis v d) := by
  obtain ⟨h1, h2, h3⟩ := hv
  cases axis <;> simp [withAxMin, axMax, minLeMax] at hd ⊢ <;> omega

theorem not_minLeMax_withAxMin (axis : ColorChannel) (v : VBox) (d : Nat)
    (hd : axMax axis v < d) :
    ¬ minLeMax (withAxMin axis v d) := by
  cases axis <;> simp [withAxMin, axMax, minLeMax] at hd ⊢ <;> omega

theorem amc_good (histogram : Histogram) (v v1 : VBox) (ov2 : Option VBox)
    (hg : GoodBox histogram v)
    (h : apply_median_cut histogram v = some (Except.ok (v1, ov2))) :
    GoodBox histogram v1 ∧ ∀ w, ov2 = some w → GoodBox histogram w := by
  cases ov2 with
  | none =>
    obtain ⟨h1, hv⟩ := amc_ok_one_destruct _ _ _ h
    subst hv
    exact ⟨hg, by intro w hw; cases hw⟩
  | some v2 =>
    obtain ⟨h0, h1, d2, hlo, hhi, hv1, hv2⟩ := amc_ok_two_destruct _ _ _ _ h
    have hm : minLeMax v := by
      cases hg.2 with
      | inl hmm => exact hmm
      | inr hz => exact absurd hz h0
    subst hv1
    subst hv2
    refine ⟨goodBox_recalc _ _ (Or.inl (minLeMax_withAxMax _ _ _ hm hlo)), ?_⟩
    intro w hw
    cases hw
    by_cases hcase : d2 + 1 ≤ axMax (widest_color_channel v) v
    · exact goodBox_recalc _ _ (Or.inl (minLeMax_withAxMin _ _ _ hm hcase))
    · refine goodBox_recalc _ _ (Or.inr ?_)
      apply calc_count_eq_zero_of_not_minLeMax
      exact not_minLeMax_withAxMin _ _ _ (by omega)

/-! ### Invariants of the iteration loop -/

theorem iterate_good (histogram : Histogram) (cmp : VBox → VBox → Ordering)
    (target fuel : Nat) (queue : List VBox) (color : Nat) (q' : List VBox) (c' : Nat)
    (hg : ∀ v ∈ queue, GoodBox histogram v)
    (h : iterate histogram cmp target fuel queue color = some (Except.ok (q', c'))) :
    ∀ v ∈ q', GoodBox histogram v := by
  induction fuel generalizing queue color with
  | zero =>
    unfold iterate at h
    simp only [Option.some.injEq, Except.ok.injEq, Prod.mk.injEq] at h
    rw [← h.1]
    exact hg
  | succ n ih =>
    unfold iterate at h
    split at h
    · exact ih _ _ hg h
    · rename_i vb hlast
      have hvb : vb ∈ queue := List.mem_of_mem_getLast? hlast
      split at h
      · refine ih _ _ ?_ h
        intro v hv
        exact hg v ((mem_sortBy cmp v queue).mp hv)
      · split at h
        · exact absurd h (by simp)
        · exact absurd h (by simp)
        · rename_i w1 ow2 hamc
          have hch := amc_good _ _ _ _ (hg vb hvb) hamc
          have hqs : ∀ v ∈ sortBy cmp (queue.dropLast ++
              (match ow2 with | none => [w1] | some v2 => [w1, v2])),
              GoodBox histogram v := by
            intro v hv
            rw [mem_sortBy] at hv
            rcases List.mem_append.mp hv with hv1 | hv2
            · exact hg v (List.dropLast_subset queue hv1)
            · cases ow2 with
              | none =>
                simp only [List.mem_singleton] at hv2
                rw [hv2]
                exact hch.1
              | some w2 =>
                simp only [List.mem_cons, List.mem_singleton] at hv2
                rcases hv2 with hv2 | hv2 | hv2
                · rw [hv2]; exact hch.1
                · rw [hv2]; exact hch.2 w2 rfl
                · cases hv2
          cases ow2 with
          | none =>
            dsimp only at h hqs
            split at h
            · simp only [Option.some.injEq, Except.ok.injEq, Prod.mk.injEq] at h
              rw [← h.1]
              exact hqs
            · exact ih _ _ hqs h
          | some w2 =>
            dsimp only at h hqs
            split at h
            · simp only [Option.some.injEq, Except.ok.injEq, Prod.mk.injEq] at h
              rw [← h.1]
              exact hqs
            · exact ih _ _ hqs h

theorem iterate_len (histogram : Histogram) (cmp : VBox → VBox → Ordering)
    (target fuel : Nat) (queue : List VBox) (color : Nat) (q' : List VBox) (c' : Nat)
    (h : iterate histogram cmp target fuel queue color = some (Except.ok (q', c'))) :
    q'.length + color = queue.length + c' := by
  induction fuel generalizing queue color with
  | zero =>
    unfold iterate at h
    simp only [Option.some.injEq, Except.ok.injEq, Prod.mk.injEq] at h
    rw [← h.1, ← h.2]
  | succ n ih =>
    unfold iterate at h
    split at h
    · exact ih _ _ h
    · rename_i vb hlast
      have hne : queue ≠ [] := by
        intro hq
        rw [hq] at hlast
        cases hlast
      have hpos : 0 < queue.length := List.length_pos.mpr hne
      split at h
      · have := ih _ _ h
        rwa [length_sortBy] at this
      · split at h
        · exact absurd h (by simp)
        · exact absurd h (by simp)
        · rename_i w1 ow2 hamc
          cases ow2 with
          | none =>
            dsimp only at h
            have hlen : (sortBy cmp (queue.dropLast ++ [w1])).length = queue.length := by
              rw [length_sortBy, List.length_append, List.length_dropLast]
              simp only [List.length_singleton]
              omega
            split at h
            · simp only [Option.some.injEq, Except.ok.injEq, Prod.mk.injEq] at h
              rw [← h.1, ← h.2, hlen]
            · have := ih _ _ h
              rw [hlen] at this
              omega
          | some w2 =>
            dsimp only at h
            have hlen : (sortBy cmp (queue.dropLast ++ [w1, w2])).length =
                queue.length + 1 := by
              rw [length_sortBy, List.length_append, List.length_dropLast]
              simp only [List.length_cons, List.length_nil]
              omega
            split at h
            · simp only [Option.some.injEq, Except.ok.injEq, Prod.mk.injEq] at h
              rw [← h.1, ← h.2, hlen]
              omega
            · have := ih _ _ h
              rw [hlen] at this
              omega

theorem iterate_color_le (histogram : Histogram) (cmp : VBox → VBox → Ordering)
    (target fuel : Nat) (queue : List VBox) (color : Nat) (q' : List VBox) (c' : Nat)
    (h : iterate histogram cmp target fuel queue color = some (Except.ok (q', c'))) :
    c' ≤ max (color + 1) target := by
  induction fuel generalizing queue color with
  | zero =>
    unfold iterate at h
    simp only [Option.some.injEq, Except.ok.injEq, Prod.mk.injEq] at h
    omega
  | succ n ih =>
    unfold iterate at h
    split at h
    · exact ih _ _ h
    · rename_i vb hlast
      split at h
      · exact ih _ _ h
      · split at h
        · exact absurd h (by simp)
        · exact absurd h (by simp)
        · rename_i w1 ow2 hamc
          cases ow2 with
          | none =>
            dsimp only at h
            split at h
            · simp only [Option.some.injEq, Except.ok.injEq, Prod.mk.injEq] at h
              omega
            · exact ih _ _ h
          | some w2 =>
            dsimp only at h
            split at h
            · rename_i hbreak
              simp only [Option.some.injEq, Except.ok.injEq, Prod.mk.injEq] at h
              omega
            · rename_i hbreak
              have := ih _ _ h
              omega

theorem iterate_ne_nil (histogram : Histogram) (cmp : VBox → VBox → Ordering)
    (target fuel : Nat) (queue : List VBox) (color : Nat) (q' : List VBox) (c' : Nat)
    (hne : queue ≠ [])
    (h : iterate histogram cmp target fuel queue color = some (Except.ok (q', c'))) :
    q' ≠ [] := by
  induction fuel generalizing queue color with
  | zero =>
    unfold iterate at h
    simp only [Option.some.injEq, Except.ok.injEq, Prod.mk.injEq] at h
    rw [← h.1]
    exact hne
  | succ n ih =>
    unfold iterate at h
    split at h
    · exact ih _ _ hne h
    · rename_i vb hlast
      split at h
      · exact ih _ _ (sortBy_ne_nil cmp queue hne) h
      · split at h
        · exact absurd h (by simp)
        · exact absurd h (by simp)
        · rename_i w1 ow2 hamc
          cases ow2 with
          | none =>
            dsimp only at h
            have hqs : sortBy cmp (queue.dropLast ++ [w1]) ≠ [] := by
              apply sortBy_ne_nil
              simp
            split at h
            · simp only [Option.some.injEq, Except.ok.injEq, Prod.mk.injEq] at h
              rw [← h.1]
              exact hqs
            · exact ih _ _ hqs h
          | some w2 =>
            dsimp only at h
            have hqs : sortBy cmp (queue.dropLast ++ [w1, w2]) ≠ [] := by
              apply sortBy_ne_nil
              simp
            split at h
            · simp only [Option.some.injEq, Except.ok.injEq, Prod.mk.injEq] at h
              rw [← h.1]
              exact hqs
            · exact ih _ _ hqs h

/-! ### The sampling loop -/

/-- Characterization of the loop indices `i, i+s, i+2s, … < pc` (with
enough fuel): exactly the values congruent to `i` modulo `s` in
`[i, pc)`. -/
theorem mem_sampleIndices (s : Nat) (hs : 1 ≤ s) :
    ∀ fuel i pc j, pc ≤ i + fuel * s →
      (j ∈ sampleIndices fuel i pc s ↔ i ≤ j ∧ j < pc ∧ s ∣ (j - i)) := by
  intro fuel
  induction fuel with
  | zero =>
    intro i pc j hf
    simp only [sampleIndices, List.not_mem_nil, false_iff]
    rintro ⟨h1, h2, _⟩
    simp only [Nat.zero_mul, Nat.add_zero] at hf
    omega
  | succ n ih =>
    intro i pc j hf
    have hmul : (n + 1) * s = n * s + s := Nat.succ_mul n s
    unfold sampleIndices
    split
    · rename_i hlt
      rw [List.mem_cons, ih (i + s) pc j (by omega)]
      constructor
      · rintro (rfl | ⟨h1, h2, k, hk⟩)
        · exact ⟨Nat.le_refl j, hlt, 0, by omega⟩
        · refine ⟨by omega, h2, k + 1, ?_⟩
          rw [Nat.mul_succ]
          omega
      · rintro ⟨h1, h2, k, hk⟩
        rcases Nat.eq_or_lt_of_le h1 with rfl | hlt2
        · exact Or.inl rfl
        · right
          rcases k with _ | k2
          · omega
          · rw [Nat.mul_succ] at hk
            exact ⟨by omega, h2, k2, by omega⟩
    · rename_i hge
      simp only [List.not_mem_nil, false_iff]
      rintro ⟨h1, h2, _⟩
      omega

/-- A pixel satisfying the skip test leaves the sampler state unchanged. -/
theorem processPixel_of_skipped (pixels : List Nat) (color_format : ColorFormat)
    (cc : Nat) (st : SamplerState) (i : Nat)
    (h : is_skipped pixels color_format (i * cc)) :
    processPixel pixels color_format cc st i = st := by
  unfold processPixel
  dsimp only
  unfold is_skipped at h
  rcases hcp : color_parts pixels color_format (i * cc) with ⟨r, g, b, a⟩
  rw [hcp] at h
  dsimp only at h ⊢
  rw [if_pos h]

/-- If every sampled pixel is skipped, the whole sampling fold is the
identity. -/
theorem foldl_processPixel_skip (pixels : List Nat) (color_format : ColorFormat)
    (cc : Nat) (l : List Nat) (st : SamplerState)
    (h : ∀ i ∈ l, is_skipped pixels color_format (i * cc)) :
    l.foldl (processPixel pixels color_format cc) st = st := by
  induction l generalizing st with
  | nil => rfl
  | cons i rest ih =>
    rw [List.foldl_cons,
      processPixel_of_skipped pixels color_format cc st i (h i (List.mem_cons_self i rest))]
    exact ih _ (fun x hx => h x (List.mem_cons_of_mem i hx))

/-! ### The degenerate run: a queue holding one zero-count box spins -/

theorem sortBy_singleton (cmp : VBox → VBox → Ordering) (v : VBox) :
    sortBy cmp [v] = [v] := rfl

theorem iterate_spin (histogram : Histogram) (cmp : VBox → VBox → Ordering)
    (target : Nat) (v : VBox) (hv : v.count = 0) :
    ∀ fuel color, iterate histogram cmp target fuel [v] color =
      some (Except.ok ([v], color)) := by
  intro fuel
  induction fuel with
  | zero =>
    intro color
    rfl
  | succ n ih =>
    intro color
    unfold iterate
    rw [show ([v] : List VBox).getLast? = some v from rfl]
    dsimp only
    rw [if_pos hv, sortBy_singleton]
    exact ih color

/-- `quantize` on an input whose initial box is empty: both phases spin
without touching the box, and the result is its (fallback) average. -/
theorem quantize_of_empty_seed (pixels : List Nat) (color_format : ColorFormat)
    (quality max_colors : Nat) (B : VBox) (h0 : Histogram)
    (hmk : make_histogram_and_vbox pixels color_format quality = (B, h0))
    (hB : B.count = 0) (hm : 1 ≤ max_colors) :
    quantize pixels color_format quality max_colors =
      some (Except.ok [B.average]) := by
  unfold quantize
  rw [hmk]
  dsimp only
  rw [iterate_spin h0 compare_by_count _ B hB MAX_ITERATIONS 1]
  dsimp only
  rw [sortBy_singleton]
  rw [iterate_spin h0 compare_by_product _ B hB MAX_ITERATIONS 1]
  dsimp only
  obtain ⟨m, rfl⟩ : ∃ m, max_colors = m + 1 := ⟨max_colors - 1, by omega⟩
  rw [List.reverse_singleton, List.map_singleton, List.take_succ_cons, List.take_nil]

/-! ### Claim C6 -/

/-- Claim C6: for every histogram and every VBox, if the VBox's (cached)
count is 0 then `apply_median_cut` fails with `InvalidVBox`, and if its
count is 1 it succeeds with the unchanged box and no second box. -/
theorem claim_C6 (histogram : Histogram) (v : VBox) :
    (v.count = 0 →
      apply_median_cut histogram v = some (Except.error Error.InvalidVBox)) ∧
    (v.count = 1 →
      apply_median_cut histogram v = some (Except.ok (v, none))) := by
  constructor
  · intro h0
    unfold apply_median_cut
    rw [if_pos h0]
  · intro h1
    unfold apply_median_cut
    rw [if_neg (by rw [h1]; norm_num), if_pos h1]

/-- Witness for C6 at a concrete histogram and concrete boxes of count 0
and count 1. -/
theorem claim_C6_witness :
    ((VBox.new 0 0 0 0 0 0).count = 0 ∧
      apply_median_cut (fun _ => 0) (VBox.new 0 0 0 0 0 0) =
        some (Except.error Error.InvalidVBox)) ∧
    (({ VBox.new 0 0 0 0 0 0 with count := 1 } : VBox).count = 1 ∧
      apply_median_cut (fun _ => 0) { VBox.new 0 0 0 0 0 0 with count := 1 } =
        some (Except.ok ({ VBox.new 0 0 0 0 0 0 with count := 1 }, none))) :=
  ⟨⟨rfl, (claim_C6 (fun _ => 0) (VBox.new 0 0 0 0 0 0)).1 rfl⟩,
   ⟨rfl, (claim_C6 (fun _ => 0) { VBox.new 0 0 0 0 0 0 with count := 1 }).2 rfl⟩⟩

/-! ### Claim C7 -/

/-- Claim C7: `make_color_index_of` is injective on the 5-bit reduced cube,
and unpacking the 5-bit fields of a packed index recovers the triple. -/
theorem claim_C7 :
    (∀ r g b r' g' b' : Nat, r < 32 → g < 32 → b < 32 →
      r' < 32 → g' < 32 → b' < 32 →
      make_color_index_of r g b = make_color_index_of r' g' b' →
      r = r' ∧ g = g' ∧ b = b') ∧
    (∀ r g b : Nat, r < 32 → g < 32 → b < 32 →
      unpack_color_index (make_color_index_of r g b) = (r, g, b)) := by
  have hpack : ∀ r g b : Nat, make_color_index_of r g b = r * 1024 + g * 32 + b := by
    intro r g b
    unfold make_color_index_of SIGNAL_BITS
    rw [Nat.shiftLeft_eq, Nat.shiftLeft_eq]
  constructor
  · intro r g b r' g' b' hr hg hb hr' hg' hb' heq
    rw [hpack, hpack] at heq
    omega
  · intro r g b hr hg hb
    rw [hpack]
    unfold unpack_color_index
    simp only [Prod.mk.injEq]
    refine ⟨?_, ?_, ?_⟩ <;> omega

/-- Witness for C7 at the concrete triple (3, 5, 7). -/
theorem claim_C7_witness :
    ((3 : Nat) = 3 ∧ (5 : Nat) = 5 ∧ (7 : Nat) = 7) ∧
    unpack_color_index (make_color_index_of 3 5 7) = (3, 5, 7) :=
  ⟨claim_C7.1 3 5 7 3 5 7 (by decide) (by decide) (by decide)
      (by decide) (by decide) (by decide) rfl,
   claim_C7.2 3 5 7 (by decide) (by decide) (by decide)⟩

/-! ### Claim C8 -/

/-- Claim C8: a sampled pixel contributes nothing to the histogram or the
bounds exactly when its alpha is below 125 or all of r, g, b exceed 250,
where the alpha-less formats RGB and BGR synthesize alpha 255. -/
theorem claim_C8 (pixels : List Nat) (color_format : ColorFormat)
    (st : SamplerState) (i : Nat) :
    (processPixel pixels color_format (colors_count color_format) st i = st ↔
      is_skipped pixels color_format (i * colors_count color_format)) ∧
    (∀ pos : Nat, (color_parts pixels ColorFormat.Rgb pos).2.2.2 = 255 ∧
      (color_parts pixels ColorFormat.Bgr pos).2.2.2 = 255) := by
  constructor
  · constructor
    · intro heq
      by_contra hns
      unfold processPixel at heq
      dsimp only at heq
      unfold is_skipped at hns
      rcases hcp : color_parts pixels color_format (i * colors_count color_format) with
        ⟨r, g, b, a⟩
      rw [hcp] at heq hns
      dsimp only at heq hns
      rw [if_neg hns] at heq
      have hhist := congrFun (congrArg SamplerState.histogram heq)
        (make_color_index_of (r >>> RIGHT_SHIFT) (g >>> RIGHT_SHIFT) (b >>> RIGHT_SHIFT))
      simp only [if_pos] at hhist
      omega
    · exact processPixel_of_skipped pixels color_format (colors_count color_format) st i
  · intro pos
    exact ⟨rfl, rfl⟩

/-- Witness for C8 at a concrete transparent pixel. -/
theorem claim_C8_witness :
    (processPixel [0, 0, 0, 0] ColorFormat.Rgba (colors_count ColorFormat.Rgba)
        ⟨fun _ => 0, 255, 0, 255, 0, 255, 0⟩ 0 = ⟨fun _ => 0, 255, 0, 255, 0, 255, 0⟩ ↔
      is_skipped [0, 0, 0, 0] ColorFormat.Rgba (0 * colors_count ColorFormat.Rgba)) ∧
    (∀ pos : Nat, (color_parts [0, 0, 0, 0] ColorFormat.Rgb pos).2.2.2 = 255 ∧
      (color_parts [0, 0, 0, 0] ColorFormat.Bgr pos).2.2.2 = 255) :=
  claim_C8 [0, 0, 0, 0] ColorFormat.Rgba ⟨fun _ => 0, 255, 0, 255, 0, 255, 0⟩ 0

/-! ### Claim C10 -/

/-- Claim C10: `get_palette` is deterministic; the embedding is a pure
function of its four arguments, so equal arguments give equal results
(palette or error). -/
theorem claim_C10 (p1 p2 : List Nat) (f1 f2 : ColorFormat) (q1 q2 m1 m2 : Nat)
    (hp : p1 = p2) (hf : f1 = f2) (hq : q1 = q2) (hm : m1 = m2) :
    get_palette p1 f1 q1 m1 = get_palette p2 f2 q2 m2 := by
  rw [hp, hf, hq, hm]

/-- Witness for C10 at a concrete repeated call. -/
theorem claim_C10_witness :
    ([0, 0, 0] : List Nat) = [0, 0, 0] ∧ ColorFormat.Rgb = ColorFormat.Rgb ∧
    (1 : Nat) = 1 ∧ (2 : Nat) = 2 ∧
    get_palette [0, 0, 0] ColorFormat.Rgb 1 2 = get_palette [0, 0, 0] ColorFormat.Rgb 1 2 :=
  ⟨rfl, rfl, rfl, rfl,
   claim_C10 [0, 0, 0] [0, 0, 0] ColorFormat.Rgb ColorFormat.Rgb 1 1 2 2 rfl rfl rfl rfl⟩

/-! ### Claim C2 -/

/-- Counterexample to C2 as stated: with a 6-byte RGB buffer and quality 1
(`s = channel_count * quality = 3` bytes), the claim says the pixels at
byte offsets 0 and 3 are both sampled (consecutive sampled pixels 1 pixel
apart).  The code samples only pixel index 0: pixel index 1 (byte offset
3, color (8,8,8), which no skip rule rejects) never reaches the histogram,
whose bucket stays 0. -/
theorem counterexample_C2 :
    (make_histogram_and_vbox [0, 0, 0, 8, 8, 8] ColorFormat.Rgb 1).2
      (make_color_index_of 0 0 0) = 1 ∧
    (make_histogram_and_vbox [0, 0, 0, 8, 8, 8] ColorFormat.Rgb 1).2
      (make_color_index_of 1 1 1) = 0 ∧
    ¬ is_skipped [0, 0, 0, 8, 8, 8] ColorFormat.Rgb 3 ∧
    sampledPixelIndices [0, 0, 0, 8, 8, 8] ColorFormat.Rgb 1 = [0] := by
  refine ⟨rfl, rfl, ?_, rfl⟩
  decide

/-- Claim C2 (amended): the sampling loop adds `channel_count * quality`
to the pixel index each round, so the sampled pixel indices are exactly
the multiples of `channel_count(format) * quality` below the pixel count
(equivalently, consecutive sampled pixels are `channel_count * quality`
pixels apart, i.e. byte offsets are multiples of
`channel_count(format)^2 * quality`). -/
theorem claim_C2 (pixels : List Nat) (color_format : ColorFormat) (quality : Nat)
    (hq : 1 ≤ quality) (j : Nat) :
    j ∈ sampledPixelIndices pixels color_format quality ↔
      (colors_count color_format * quality) ∣ j ∧
        j < pixels.length / colors_count color_format := by
  have hcc : 1 ≤ colors_count color_format := by
    cases color_format <;> decide
  have hs : 1 ≤ colors_count color_format * quality := by
    calc 1 = 1 * 1 := rfl
    _ ≤ colors_count color_format * quality := Nat.mul_le_mul hcc hq
  unfold sampledPixelIndices
  dsimp only
  rw [mem_sampleIndices (colors_count color_format * quality) hs
    (pixels.length / colors_count color_format + 1) 0
    (pixels.length / colors_count color_format) j ?hfuel]
  case hfuel =>
    have := Nat.le_mul_of_pos_right
      (pixels.length / colors_count color_format + 1) hs
    omega
  constructor
  · rintro ⟨h1, h2, hd⟩
    rw [Nat.sub_zero] at hd
    exact ⟨hd, h2⟩
  · rintro ⟨hd, h2⟩
    rw [← Nat.sub_zero j] at hd
    exact ⟨Nat.zero_le j, h2, hd⟩

/-- Witness for C2 (amended) on the concrete 6-byte RGB buffer: pixel
index 3 is a multiple of the stride but not below the pixel count, pixel
index 0 is sampled. -/
theorem claim_C2_witness :
    (0 ∈ sampledPixelIndices [0, 0, 0, 8, 8, 8] ColorFormat.Rgb 1 ↔
      (colors_count ColorFormat.Rgb * 1) ∣ 0 ∧
        0 < [0, 0, 0, 8, 8, 8].length / colors_count ColorFormat.Rgb) ∧
    (1 ∈ sampledPixelIndices [0, 0, 0, 8, 8, 8] ColorFormat.Rgb 1 ↔
      (colors_count ColorFormat.Rgb * 1) ∣ 1 ∧
        1 < [0, 0, 0, 8, 8, 8].length / colors_count ColorFormat.Rgb) :=
  ⟨claim_C2 [0, 0, 0, 8, 8, 8] ColorFormat.Rgb 1 (by decide) 0,
   claim_C2 [0, 0, 0, 8, 8, 8] ColorFormat.Rgb 1 (by decide) 1⟩

/-! ### Claim C1 -/

set_option maxRecDepth 10000 in
/-- Counterexample to C1 as stated: on the all-transparent single-pixel
RGBA buffer `[0,0,0,0]` (alpha 0 < 125) with quality 1 and max_colors 2,
`get_palette` does not return `Err(InvalidVBox)`: the zero-count seed box
is skipped (never split) by the iteration loop, and the call returns
`Ok([(255,255,255)])` — the degenerate box's midpoint fallback average. -/
theorem counterexample_C1 :
    get_palette [0, 0, 0, 0] ColorFormat.Rgba 1 2 =
      some (Except.ok [⟨255, 255, 255⟩]) ∧
    get_palette [0, 0, 0, 0] ColorFormat.Rgba 1 2 ≠
      some (Except.error Error.InvalidVBox) := by
  have h1 : get_palette [0, 0, 0, 0] ColorFormat.Rgba 1 2 =
      some (Except.ok [⟨255, 255, 255⟩]) := rfl
  refine ⟨h1, ?_⟩
  rw [h1]
  simp

/-- Claim C1 (amended): for every RGBA buffer in which every alpha byte is
below 125 and any valid quality and max_colors, every sampled pixel is
skipped, and `get_palette` returns `Ok` with the one-element palette
`[(255,255,255)]` (the empty seed box's fallback average); in particular
it does not panic, but it does not return `InvalidVBox` either. -/
theorem claim_C1 (pixels : List Nat) (quality max_colors : Nat)
    (hq1 : 1 ≤ quality) (hq2 : quality ≤ 10) (hm : 2 ≤ max_colors)
    (halpha : ∀ j : Nat, pixels.getD (4 * j + 3) 0 < 125) :
    get_palette pixels ColorFormat.Rgba quality max_colors =
      some (Except.ok [⟨255, 255, 255⟩]) := by
  have hmk : make_histogram_and_vbox pixels ColorFormat.Rgba quality =
      (recalc (fun _ => 0) (VBox.new 255 0 255 0 255 0), fun _ => 0) := by
    unfold make_histogram_and_vbox
    dsimp only
    rw [foldl_processPixel_skip pixels ColorFormat.Rgba (colors_count ColorFormat.Rgba)
      (sampledPixelIndices pixels ColorFormat.Rgba quality) _ ?hskip]
    case hskip =>
      intro i hi
      unfold is_skipped color_parts
      dsimp only [colors_count]
      left
      rw [Nat.mul_comm i 4]
      exact halpha i
  unfold get_palette
  rw [if_pos ⟨hq1, hq2, by omega⟩]
  rw [quantize_of_empty_seed pixels ColorFormat.Rgba quality max_colors
    (recalc (fun _ => 0) (VBox.new 255 0 255 0 255 0)) (fun _ => 0) hmk rfl (by omega)]
  rfl

/-- Witness for C1 (amended) on the concrete buffer `[0,0,0,0]`. -/
theorem claim_C1_witness :
    (1 ≤ 1 ∧ (1 : Nat) ≤ 10 ∧ 2 ≤ 2 ∧
      ∀ j : Nat, ([0, 0, 0, 0] : List Nat).getD (4 * j + 3) 0 < 125) ∧
    get_palette [0, 0, 0, 0] ColorFormat.Rgba 1 2 =
      some (Except.ok [⟨255, 255, 255⟩]) := by
  have halpha : ∀ j : Nat, ([0, 0, 0, 0] : List Nat).getD (4 * j + 3) 0 < 125 := by
    intro j
    match j with
    | 0 => decide
    | jj + 1 =>
      rw [List.getD_eq_default]
      · decide
      · simp only [List.length_cons, List.length_nil]
        omega
  exact ⟨⟨Nat.le_refl 1, by decide, Nat.le_refl 2, halpha⟩,
    claim_C1 [0, 0, 0, 0] 1 2 (by decide) (by decide) (by decide) halpha⟩

/-! ### Claim C3 -/

/-- Any recalculated box is a `GoodBox`: its count cache is true, and if
its bounds are inverted on some axis, that true count is 0. -/
theorem goodBox_of_recalc (histogram : Histogram) (w : VBox) :
    GoodBox histogram (recalc histogram w) := by
  by_cases hm : minLeMax w
  · exact goodBox_recalc histogram w (Or.inl hm)
  · exact goodBox_recalc histogram w
      (Or.inr (calc_count_eq_zero_of_not_minLeMax histogram w hm))

/-- Counterexample to C3 as stated: during the `get_palette` computation
on the all-transparent buffer `[0,0,0,0]` (valid arguments: quality 1,
max_colors 2), the initial VBox produced by the sampler pass keeps the
sentinel bounds `min = 255 > 0 = max` on every axis, violating
`min ≤ max`. -/
theorem counterexample_C3 :
    (make_histogram_and_vbox [0, 0, 0, 0] ColorFormat.Rgba 1).1.r_min = 255 ∧
    (make_histogram_and_vbox [0, 0, 0, 0] ColorFormat.Rgba 1).1.r_max = 0 ∧
    ¬ minLeMax (make_histogram_and_vbox [0, 0, 0, 0] ColorFormat.Rgba 1).1 := by
  refine ⟨rfl, rfl, ?_⟩
  decide

/-- Claim C3 (amended): every VBox existing during a `get_palette`
computation satisfies `min ≤ max` on each axis whenever its count is
nonzero; a zero-count box (the sentinel initial box when no sampled pixel
survives, or the empty upper half of a split) may violate it.  Stated as:
the initial box is a `GoodBox`, `apply_median_cut` maps a `GoodBox` to
`GoodBox` children, `iterate` preserves queues of `GoodBox`es, and a
`GoodBox` of nonzero count has `min ≤ max` on every axis. -/
theorem claim_C3 (pixels : List Nat) (color_format : ColorFormat) (quality : Nat) :
    GoodBox (make_histogram_and_vbox pixels color_format quality).2
      (make_histogram_and_vbox pixels color_format quality).1 ∧
    (∀ (histogram : Histogram) (v v1 : VBox) (ov2 : Option VBox),
      GoodBox histogram v →
      apply_median_cut histogram v = some (Except.ok (v1, ov2)) →
      GoodBox histogram v1 ∧ ∀ w, ov2 = some w → GoodBox histogram w) ∧
    (∀ (histogram : Histogram) (cmp : VBox → VBox → Ordering)
      (target fuel : Nat) (queue : List VBox) (color : Nat)
      (q' : List VBox) (c' : Nat),
      (∀ v ∈ queue, GoodBox histogram v) →
      iterate histogram cmp target fuel queue color = some (Except.ok (q', c')) →
      ∀ v ∈ q', GoodBox histogram v) ∧
    (∀ (histogram : Histogram) (v : VBox),
      GoodBox histogram v → v.count ≠ 0 → minLeMax v) := by
  refine ⟨?_, ?_, ?_, ?_⟩
  · unfold make_histogram_and_vbox
    dsimp only
    exact goodBox_of_recalc _ _
  · intro histogram v v1 ov2 hg hamc
    exact amc_good histogram v v1 ov2 hg hamc
  · intro histogram cmp target fuel queue color q' c' hg hit
    exact iterate_good histogram cmp target fuel queue color q' c' hg hit
  · intro histogram v hg hc
    rcases hg.2 with hmm | hz
    · exact hmm
    · exact absurd hz hc

/-- Witness for C3 (amended): a concrete `GoodBox` of nonzero count has
ordered bounds, and a concrete `apply_median_cut` call preserves
goodness. -/
theorem claim_C3_witness :
    (GoodBox (fun _ => 1) (recalc (fun _ => 1) (VBox.new 0 0 0 0 0 0)) ∧
      (recalc (fun _ => 1) (VBox.new 0 0 0 0 0 0)).count ≠ 0) ∧
    minLeMax (recalc (fun _ => 1) (VBox.new 0 0 0 0 0 0)) := by
  refine ⟨⟨by decide, by decide⟩, ?_⟩
  exact (claim_C3 [] ColorFormat.Rgb 1).2.2.2 (fun _ => 1)
    (recalc (fun _ => 1) (VBox.new 0 0 0 0 0 0)) (by decide) (by decide)

/-! ### Claim C5 -/

/-- Claim C5: whenever `apply_median_cut` succeeds with two boxes, the two
children are cell-disjoint; along the split axis (the parent's widest
channel) the children's bounds partition the parent's bounds exactly
(child 1 starts at the parent's min, child 2 ends at the parent's max,
child 2 starts right after child 1 ends, and the cut lies within the
parent's range); on the two other axes both children keep the parent's
bounds. -/
theorem claim_C5 (histogram : Histogram) (v v1 v2 : VBox)
    (h : apply_median_cut histogram v = some (Except.ok (v1, some v2))) :
    (∀ r g b : Nat, ¬(inVBox v1 r g b ∧ inVBox v2 r g b)) ∧
    axMin (widest_color_channel v) v1 = axMin (widest_color_channel v) v ∧
    axMax (widest_color_channel v) v2 = axMax (widest_color_channel v) v ∧
    axMin (widest_color_channel v) v2 = axMax (widest_color_channel v) v1 + 1 ∧
    axMin (widest_color_channel v) v ≤ axMax (widest_color_channel v) v1 ∧
    axMax (widest_color_channel v) v1 ≤ axMax (widest_color_channel v) v ∧
    (∀ ax : ColorChannel, ax ≠ widest_color_channel v →
      axMin ax v1 = axMin ax v ∧ axMax ax v1 = axMax ax v ∧
      axMin ax v2 = axMin ax v ∧ axMax ax v2 = axMax ax v) := by
  obtain ⟨h0, h1, d2, hlo, hhi, hv1, hv2⟩ := amc_ok_two_destruct _ _ _ _ h
  subst hv1
  subst hv2
  revert hlo hhi
  cases hax : widest_color_channel v <;> intro hlo hhi
  case Red =>
    refine ⟨?_, rfl, rfl, rfl, ?_, ?_, ?_⟩
    · rintro r g b ⟨hin1, hin2⟩
      unfold inVBox recalc at hin1 hin2
      dsimp only [withAxMax, withAxMin] at hin1 hin2
      omega
    · simpa [axMin, axMax, recalc, withAxMax] using hlo
    · simpa [axMin, axMax, recalc, withAxMax] using hhi
    · intro ax hne
      cases ax
      · exact absurd rfl hne
      · exact ⟨rfl, rfl, rfl, rfl⟩
      · exact ⟨rfl, rfl, rfl, rfl⟩
  case Green =>
    refine ⟨?_, rfl, rfl, rfl, ?_, ?_, ?_⟩
    · rintro r g b ⟨hin1, hin2⟩
      unfold inVBox recalc at hin1 hin2
      dsimp only [withAxMax, withAxMin] at hin1 hin2
      omega
    · simpa [axMin, axMax, recalc, withAxMax] using hlo
    · simpa [axMin, axMax, recalc, withAxMax] using hhi
    · intro ax hne
      cases ax
      · exact ⟨rfl, rfl, rfl, rfl⟩
      · exact absurd rfl hne
      · exact ⟨rfl, rfl, rfl, rfl⟩
  case Blue =>
    refine ⟨?_, rfl, rfl, rfl, ?_, ?_, ?_⟩
    · rintro r g b ⟨hin1, hin2⟩
      unfold inVBox recalc at hin1 hin2
      dsimp only [withAxMax, withAxMin] at hin1 hin2
      omega
    · simpa [axMin, axMax, recalc, withAxMax] using hlo
    · simpa [axMin, axMax, recalc, withAxMax] using hhi
    · intro ax hne
      cases ax
      · exact ⟨rfl, rfl, rfl, rfl⟩
      · exact ⟨rfl, rfl, rfl, rfl⟩
      · exact absurd rfl hne

/-- Witness for C5 on a concrete two-cell box (cells (0,0,0) and (1,0,0),
one pixel each): the split succeeds with two disjoint children. -/
theorem claim_C5_witness :
    apply_median_cut (fun idx => if idx = 0 then 1 else if idx = 1024 then 1 else 0)
        ⟨0, 1, 0, 0, 0, 0, ⟨0, 0, 0⟩, 2, 2⟩ =
      some (Except.ok
        (recalc (fun idx => if idx = 0 then 1 else if idx = 1024 then 1 else 0)
          (withAxMax ColorChannel.Red ⟨0, 1, 0, 0, 0, 0, ⟨0, 0, 0⟩, 2, 2⟩ 0),
        some (recalc (fun idx => if idx = 0 then 1 else if idx = 1024 then 1 else 0)
          (withAxMin ColorChannel.Red ⟨0, 1, 0, 0, 0, 0, ⟨0, 0, 0⟩, 2, 2⟩ 1)))) ∧
    ∀ r g b : Nat,
      ¬(inVBox (recalc (fun idx => if idx = 0 then 1 else if idx = 1024 then 1 else 0)
          (withAxMax ColorChannel.Red ⟨0, 1, 0, 0, 0, 0, ⟨0, 0, 0⟩, 2, 2⟩ 0)) r g b ∧
        inVBox (recalc (fun idx => if idx = 0 then 1 else if idx = 1024 then 1 else 0)
          (withAxMin ColorChannel.Red ⟨0, 1, 0, 0, 0, 0, ⟨0, 0, 0⟩, 2, 2⟩ 1)) r g b) := by
  have hamc : apply_median_cut
      (fun idx => if idx = 0 then 1 else if idx = 1024 then 1 else 0)
      ⟨0, 1, 0, 0, 0, 0, ⟨0, 0, 0⟩, 2, 2⟩ =
    some (Except.ok
      (recalc (fun idx => if idx = 0 then 1 else if idx = 1024 then 1 else 0)
        (withAxMax ColorChannel.Red ⟨0, 1, 0, 0, 0, 0, ⟨0, 0, 0⟩, 2, 2⟩ 0),
      some (recalc (fun idx => if idx = 0 then 1 else if idx = 1024 then 1 else 0)
        (withAxMin ColorChannel.Red ⟨0, 1, 0, 0, 0, 0, ⟨0, 0, 0⟩, 2, 2⟩ 1)))) := rfl
  exact ⟨hamc, (claim_C5 _ _ _ _ hamc).1⟩

/-! ### Claim C9 -/

/-- Claim C9: after the phase-1 iteration (target
`ceil(0.75 * max_colors) = (3*max_colors + 3)/4`) on the seed queue, the
queue holds at most `max_colors` boxes, so the `u8` subtraction
`max_colors - len` computing the phase-2 target cannot underflow. -/
theorem claim_C9 (pixels : List Nat) (color_format : ColorFormat)
    (quality max_colors : Nat) (hm : 2 ≤ max_colors)
    (q1 : List VBox) (c1 : Nat)
    (h : iterate (make_histogram_and_vbox pixels color_format quality).2
        compare_by_count ((3 * max_colors + 3) / 4) MAX_ITERATIONS
        [(make_histogram_and_vbox pixels color_format quality).1] 1 =
      some (Except.ok (q1, c1))) :
    q1.length ≤ max_colors := by
  have hlen := iterate_len _ _ _ _ _ _ _ _ h
  have hcol := iterate_color_le _ _ _ _ _ _ _ _ h
  simp only [List.length_singleton] at hlen
  omega

/-- Witness for C9 on the all-transparent buffer: phase 1 spins on the
zero-count seed box, ending with a one-element queue. -/
theorem claim_C9_witness :
    (2 ≤ 2 ∧
      iterate (make_histogram_and_vbox [0, 0, 0, 0] ColorFormat.Rgba 1).2
        compare_by_count ((3 * 2 + 3) / 4) MAX_ITERATIONS
        [(make_histogram_and_vbox [0, 0, 0, 0] ColorFormat.Rgba 1).1] 1 =
      some (Except.ok
        ([(make_histogram_and_vbox [0, 0, 0, 0] ColorFormat.Rgba 1).1], 1))) ∧
    ([(make_histogram_and_vbox [0, 0, 0, 0] ColorFormat.Rgba 1).1] : List VBox).length ≤ 2 := by
  have hit : iterate (make_histogram_and_vbox [0, 0, 0, 0] ColorFormat.Rgba 1).2
      compare_by_count ((3 * 2 + 3) / 4) MAX_ITERATIONS
      [(make_histogram_and_vbox [0, 0, 0, 0] ColorFormat.Rgba 1).1] 1 =
    some (Except.ok
      ([(make_histogram_and_vbox [0, 0, 0, 0] ColorFormat.Rgba 1).1], 1)) :=
    iterate_spin _ _ _ _ rfl MAX_ITERATIONS 1
  exact ⟨⟨Nat.le_refl 2, hit⟩,
    claim_C9 [0, 0, 0, 0] ColorFormat.Rgba 1 2 (Nat.le_refl 2) _ _ hit⟩

/-! ### Claim C4 -/

/-- Claim C4: for valid inputs, a successful `get_palette` returns at most
`max_colors` colors, and at least one color whenever at least one sampled
pixel survives the skipping rules (the queue in fact never empties, so the
lower bound holds on every success). -/
theorem claim_C4 (pixels : List Nat) (color_format : ColorFormat)
    (quality max_colors : Nat) (colors : List Color)
    (hq1 : 1 ≤ quality) (hq2 : quality ≤ 10) (hm : 2 ≤ max_colors)
    (h : get_palette pixels color_format quality max_colors =
      some (Except.ok colors)) :
    colors.length ≤ max_colors ∧
    ((∃ i ∈ sampledPixelIndices pixels color_format quality,
        ¬ is_skipped pixels color_format (i * colors_count color_format)) →
      1 ≤ colors.length) := by
  unfold get_palette at h
  rw [if_pos ⟨hq1, hq2, by omega⟩] at h
  unfold quantize at h
  dsimp only at h
  split at h
  · cases h
  · exact absurd h (by simp)
  · rename_i pq1 c1 heq1
    split at h
    · cases h
    · exact absurd h (by simp)
    · rename_i pq3 c3 heq2
      simp only [Option.some.injEq, Except.ok.injEq] at h
      have hpq1 : pq1 ≠ [] :=
        iterate_ne_nil _ _ _ _ _ _ _ _ (by simp) heq1
      have hpq2 : sortBy compare_by_product pq1 ≠ [] := sortBy_ne_nil _ _ hpq1
      have hpq3 : pq3 ≠ [] := iterate_ne_nil _ _ _ _ _ _ _ _ hpq2 heq2
      have hlen3 : 1 ≤ pq3.length := List.length_pos.mpr hpq3
      constructor
      · rw [← h, List.length_take]
        omega
      · intro _
        rw [← h, List.length_take, List.length_map, List.length_reverse]
        omega

/-- Witness for C4 on a concrete two-color RGB buffer (black at pixel 0,
red at pixel 3, the two sampled pixels): the palette has two colors. -/
theorem claim_C4_witness :
    get_palette [0, 0, 0, 9, 9, 9, 9, 9, 9, 255, 0, 0] ColorFormat.Rgb 1 2 =
      some (Except.ok [⟨252, 4, 4⟩, ⟨4, 4, 4⟩]) ∧
    ([⟨252, 4, 4⟩, ⟨4, 4, 4⟩] : List Color).length ≤ 2 ∧
    1 ≤ ([⟨252, 4, 4⟩, ⟨4, 4, 4⟩] : List Color).length := by
  have hgp : get_palette [0, 0, 0, 9, 9, 9, 9, 9, 9, 255, 0, 0] ColorFormat.Rgb 1 2 =
      some (Except.ok [⟨252, 4, 4⟩, ⟨4, 4, 4⟩]) := rfl
  have hc := claim_C4 [0, 0, 0, 9, 9, 9, 9, 9, 9, 255, 0, 0] ColorFormat.Rgb 1 2
    [⟨252, 4, 4⟩, ⟨4, 4, 4⟩] (by decide) (by decide) (by decide) hgp
  exact ⟨hgp, hc.1, hc.2 ⟨0, by decide, by decide⟩⟩

end ColorThief
